import Mathlib

/-!
# Verification of `calc_insert_size.py` (bamqc)

A shallow embedding of the insert-size median calculator
(`src/pytest/calc_insert_size.py`) and proofs about it.

Modelling choices:
* A `pysam.AlignedSegment` becomes a record of the fields the program reads.
* A Python `Counter` (histogram) becomes an association list
  `List (Nat × Nat)` of `(insert size, count)` pairs with distinct keys;
  incrementing a missing key appends it, mirroring dict insertion order.
* Python's `sorted(counts.keys())` becomes `List.insertionSort (· ≤ ·)`.
* The float proportion test `n / total >= min_pct` is modelled exactly over
  `ℚ` as `min_pct ≤ mkRat n total`.
* The record stream read from the BAM file becomes a `List AlignedSegment`;
  each `raise ValueError` site of `compute_insert_size` becomes a
  constructor of `CISError`, and the function returns `Except CISError Nat`.
-/

/-- The fields of a `pysam.AlignedSegment` that `calc_insert_size.py` reads. -/
structure AlignedSegment where
  is_paired : Bool
  is_secondary : Bool
  is_supplementary : Bool
  is_duplicate : Bool
  is_unmapped : Bool
  mate_is_unmapped : Bool
  is_proper_pair : Bool
  is_reverse : Bool
  mate_is_reverse : Bool
  reference_id : Int
  next_reference_id : Int
  template_length : Int
deriving DecidableEq, Repr

/-- `_pair_orientation_leftmost`: classify a leftmost record by the strand
flags of its two ends.  Returns the same string labels as the source. -/
def pair_orientation_leftmost (rec : AlignedSegment) : String :=
  let left_rev := rec.is_reverse
  let right_rev := rec.mate_is_reverse
  if left_rev = right_rev then "TANDEM"
  else if !left_rev && right_rev then "FR" else "RF"

/-- `sum(counts.values())` for a histogram. -/
def histTotal (counts : List (Nat × Nat)) : Nat :=
  (counts.map Prod.snd).sum

/-- `counts[size]`: the count stored for a key, `0` when absent. -/
def lookupCount : List (Nat × Nat) → Nat → Nat
  | [], _ => 0
  | p :: ps, k => if p.1 = k then p.2 else lookupCount ps k

/-- `sorted(counts.keys())`. -/
def sortedKeys (counts : List (Nat × Nat)) : List Nat :=
  List.insertionSort (· ≤ ·) (counts.map Prod.fst)

/-- `max(counts.keys())` (on an empty histogram this defaults to `0`;
the source only evaluates it on a non-empty one). -/
def maxKey (counts : List (Nat × Nat)) : Nat :=
  (counts.map Prod.fst).foldr max 0

/-- The `for size in sorted(counts.keys())` loop of
`_hist_median_from_counts`: add each key's count to the running sum and
return the first key at which the running sum reaches `threshold`;
`none` when the loop exhausts. -/
def medianScan (counts : List (Nat × Nat)) (threshold : Nat) :
    Nat → List Nat → Option Nat
  | _, [] => none
  | running, k :: ks =>
    let r := running + lookupCount counts k
    if threshold ≤ r then some k else medianScan counts threshold r ks

/-- `_hist_median_from_counts`: the upper-median of a histogram, with the
defensive `0` for an empty histogram and the defensive fall-through to the
maximum key. -/
def hist_median_from_counts (counts : List (Nat × Nat)) : Nat :=
  if counts.isEmpty then 0
  else
    let total := histTotal counts
    let threshold := (total + 1) / 2
    match medianScan counts threshold 0 (sortedKeys counts) with
    | some k => k
    | none => maxKey counts

/-- Cumulative count at key `k`: the sum of the counts of all keys `≤ k`.
Used to state what the ascending scan computes. -/
def cumCount (counts : List (Nat × Nat)) (k : Nat) : Nat :=
  ((counts.filter (fun p => p.1 ≤ k)).map Prod.snd).sum

/-- `hists[ori][ins] += 1` on one `Counter`: bump the count of `k`,
inserting `(k, 1)` at the end when `k` is absent (dict insertion order). -/
def counterIncr : List (Nat × Nat) → Nat → List (Nat × Nat)
  | [], k => [(k, 1)]
  | p :: ps, k => if p.1 = k then (p.1, p.2 + 1) :: ps else p :: counterIncr ps k

/-- The scan-local state of `compute_insert_size`: the three per-orientation
histograms (`hists`) and `total_left_records`. -/
structure AggregateState where
  fr : List (Nat × Nat)
  rf : List (Nat × Nat)
  tandem : List (Nat × Nat)
  total_left_records : Nat
deriving DecidableEq, Repr

/-- The empty state `hists = {FR: Counter(), RF: Counter(), TANDEM: Counter()}`,
`total_left_records = 0`. -/
def initState : AggregateState := ⟨[], [], [], 0⟩

/-- The chain of `continue`-guards of the scan loop, as one predicate. -/
def eligible (rec : AlignedSegment) (include_duplicates require_proper_pair : Bool) :
    Bool :=
  if !rec.is_paired then false
  else if rec.is_secondary || rec.is_supplementary then false
  else if !include_duplicates && rec.is_duplicate then false
  else if rec.is_unmapped || rec.mate_is_unmapped then false
  else if rec.reference_id ≠ rec.next_reference_id then false
  else if require_proper_pair && !rec.is_proper_pair then false
  else if rec.template_length ≤ 0 then false
  else if rec.template_length.natAbs = 0 then false
  else true

/-- `hists[ori][ins] += 1` dispatched on the orientation label. -/
def addObs (st : AggregateState) (ori : String) (ins : Nat) : AggregateState :=
  if ori = "FR" then { st with fr := counterIncr st.fr ins }
  else if ori = "RF" then { st with rf := counterIncr st.rf ins }
  else { st with tandem := counterIncr st.tandem ins }

/-- One iteration of the scan loop: filter, classify, accumulate. -/
def processRecord (include_duplicates require_proper_pair : Bool)
    (st : AggregateState) (rec : AlignedSegment) : AggregateState :=
  if eligible rec include_duplicates require_proper_pair then
    let ins := rec.template_length.natAbs
    let ori := pair_orientation_leftmost rec
    let st := addObs st ori ins
    { st with total_left_records := st.total_left_records + 1 }
  else st

/-- The whole `for rec in bam.fetch(...)` loop over a record stream. -/
def scan (include_duplicates require_proper_pair : Bool)
    (records : List AlignedSegment) : AggregateState :=
  records.foldl (processRecord include_duplicates require_proper_pair) initState

/-- A retained category: its label, its count `n`, and its histogram. -/
abbrev KeptEntry := String × Nat × List (Nat × Nat)

/-- One iteration of the `for ori, cnts in hists.items()` pruning loop:
skip an empty category, keep `(ori, n, cnts)` when `n / total >= min_pct`.
The float proportion test is modelled exactly over `ℚ`. -/
def keptCheck (total : Nat) (min_pct : ℚ) (ori : String)
    (cnts : List (Nat × Nat)) : Option KeptEntry :=
  let n := histTotal cnts
  if n = 0 then none
  else if min_pct ≤ mkRat n total then some (ori, n, cnts)
  else none

/-- The categories of `hists`, in the dict's fixed insertion order. -/
def categories (st : AggregateState) : List (String × List (Nat × Nat)) :=
  [("FR", st.fr), ("RF", st.rf), ("TANDEM", st.tandem)]

/-- The `kept` dict, in insertion order (FR, RF, TANDEM). -/
def keptList (st : AggregateState) (min_pct : ℚ) : List KeptEntry :=
  (categories st).filterMap (fun p => keptCheck st.total_left_records min_pct p.1 p.2)

/-- `max(kept.items(), key=lambda kv: kv[1][0])` on a non-empty `kept`:
Python's `max` keeps the first maximal element, so a later entry replaces
the current best only when strictly larger. -/
def bestOf (x : KeptEntry) (xs : List KeptEntry) : KeptEntry :=
  xs.foldl (fun best y => if best.2.1 < y.2.1 then y else best) x

/-- The `raise ValueError` sites of `compute_insert_size`, one constructor
per site. -/
inductive CISError where
  | invalidStrategy
  | invalidOrientationPref
  | noEligibleRecords
  | allCategoriesPruned
  | prefPruned
deriving DecidableEq, Repr

/-- `compute_insert_size`, over an explicit record stream. -/
def compute_insert_size (records : List AlignedSegment)
    (include_duplicates require_proper_pair : Bool) (min_pct : ℚ)
    (orientation_pref strategy : String) : Except CISError Nat :=
  if strategy ≠ "specific" ∧ strategy ≠ "dominant" then
    Except.error CISError.invalidStrategy
  else if orientation_pref ≠ "FR" ∧ orientation_pref ≠ "RF" ∧
      orientation_pref ≠ "TANDEM" then
    Except.error CISError.invalidOrientationPref
  else
    let st := scan include_duplicates require_proper_pair records
    if st.total_left_records = 0 then Except.error CISError.noEligibleRecords
    else
      match keptList st min_pct with
      | [] => Except.error CISError.allCategoriesPruned
      | k0 :: krest =>
        if strategy = "specific" then
          match (k0 :: krest).find? (fun e => e.1 == orientation_pref) with
          | none => Except.error CISError.prefPruned
          | some e => Except.ok (hist_median_from_counts e.2.2)
        else
          Except.ok (hist_median_from_counts (bestOf k0 krest).2.2)

/-- `main`'s pre-scan range check `0.0 <= args.min_pct <= 0.5`; the CLI
wrapper exits with status 2 when this is false, before `compute_insert_size`
is called. -/
def main_min_pct_check (min_pct : ℚ) : Bool :=
  decide ((0 : ℚ) ≤ min_pct) && decide (min_pct ≤ mkRat 1 2)

instance decEqExceptCISNat : DecidableEq (Except CISError Nat) := fun x y =>
  match x, y with
  | Except.ok a, Except.ok b =>
    if h : a = b then isTrue (by rw [h]) else isFalse (by simp [h])
  | Except.error a, Except.error b =>
    if h : a = b then isTrue (by rw [h]) else isFalse (by simp [h])
  | Except.ok _, Except.error _ => isFalse (by simp)
  | Except.error _, Except.ok _ => isFalse (by simp)

/-- A plain eligible FR leftmost record used by concrete witnesses:
paired, primary, non-duplicate, both ends mapped on reference `0`,
forward/reverse strands, template length `tlen > 0`. -/
def frRecord (tlen : Int) : AlignedSegment :=
  { is_paired := true
    is_secondary := false
    is_supplementary := false
    is_duplicate := false
    is_unmapped := false
    mate_is_unmapped := false
    is_proper_pair := true
    is_reverse := false
    mate_is_reverse := true
    reference_id := 0
    next_reference_id := 0
    template_length := tlen }

/-- The sum of all counts over all keys of all three histograms of a state. -/
def histSum (st : AggregateState) : Nat :=
  histTotal st.fr + histTotal st.rf + histTotal st.tandem

/-- The number of records of a stream that pass the filter and are
classified into orientation `ori`. -/
def oriCountP (include_duplicates require_proper_pair : Bool) (ori : String)
    (rs : List AlignedSegment) : Nat :=
  rs.countP (fun r => eligible r include_duplicates require_proper_pair
    && (pair_orientation_leftmost r == ori))

/-- The entry chosen by the dominant strategy: the first maximal entry of
`kept` in its (FR, RF, TANDEM) order; `none` when nothing is retained. -/
def dominantChoice (st : AggregateState) (min_pct : ℚ) : Option KeptEntry :=
  match keptList st min_pct with
  | [] => none
  | x :: xs => some (bestOf x xs)

/-- Forget the histogram of a kept entry, keeping its label and count. -/
def keptEntryProj (e : KeptEntry) : String × Nat := (e.1, e.2.1)

/-- The labels and counts that survive pruning, computed from the four
totals alone. -/
def keptPairs (nFR nRF nT total : Nat) (min_pct : ℚ) : List (String × Nat) :=
  [("FR", nFR), ("RF", nRF), ("TANDEM", nT)].filterMap
    (fun p => if p.2 = 0 then none
      else if min_pct ≤ mkRat p.2 total then some p else none)

/-- The label chosen by the dominant strategy, computed from the four
totals alone. -/
def dominantLabel (nFR nRF nT total : Nat) (min_pct : ℚ) : Option String :=
  match keptPairs nFR nRF nT total min_pct with
  | [] => none
  | x :: xs =>
    some ((xs.foldl (fun b y => if b.2 < y.2 then y else b) x).1)

example :
    compute_insert_size [frRecord 100] false false (mkRat 1 20) "FR" "specific"
      = Except.ok 100 := by decide
example :
    compute_insert_size [frRecord 100] false false (mkRat 3 5) "FR" "specific"
      = Except.ok 100 := by decide
example :
    compute_insert_size [] false false (mkRat 1 20) "FR" "specific"
      = Except.error CISError.noEligibleRecords := by decide
example :
    compute_insert_size
      ((([90, 95, 100, 100, 100, 105, 110, 110, 300, 310] : List Int)).map frRecord)
      false false (mkRat 1 20) "FR" "specific" = Except.ok 100 := by decide

example : hist_median_from_counts [(100, 2), (200, 2)] = 100 := by decide
example : hist_median_from_counts [(100, 1), (150, 1), (200, 1)] = 150 := by decide
example : hist_median_from_counts [] = 0 := by decide
example :
    hist_median_from_counts
      [(90, 1), (95, 1), (100, 3), (105, 1), (110, 2), (300, 1), (310, 1)] = 100 := by
  decide

/-! ## Lemmas about the median estimator -/

theorem lookupCount_eq_of_mem (counts : List (Nat × Nat))
    (hnd : (counts.map Prod.fst).Nodup) :
    ∀ p ∈ counts, lookupCount counts p.1 = p.2 := by
  induction counts with
  | nil => simp
  | cons q qs ih =>
    simp only [List.map_cons, List.nodup_cons] at hnd
    intro p hp
    rcases List.mem_cons.mp hp with h | h
    · subst h; simp [lookupCount]
    · have hq : q.1 ≠ p.1 := fun he => hnd.1 (he ▸ List.mem_map_of_mem Prod.fst h)
      simpa [lookupCount, hq] using ih hnd.2 p h

theorem map_lookup_eq_map_snd (counts sub : List (Nat × Nat))
    (hnd : (counts.map Prod.fst).Nodup) (hsub : ∀ p ∈ sub, p ∈ counts) :
    sub.map (fun p => lookupCount counts p.1) = sub.map Prod.snd :=
  List.map_congr_left (fun p hp => lookupCount_eq_of_mem counts hnd p (hsub p hp))

theorem sum_lookup_eq_histTotal (counts : List (Nat × Nat))
    (hnd : (counts.map Prod.fst).Nodup) :
    ((counts.map Prod.fst).map (lookupCount counts)).sum = histTotal counts := by
  rw [List.map_map]
  have h := map_lookup_eq_map_snd counts counts hnd (fun p hp => hp)
  simpa [histTotal, Function.comp] using congrArg List.sum h

theorem sum_lookup_filter_eq_cumCount (counts : List (Nat × Nat))
    (hnd : (counts.map Prod.fst).Nodup) (k : Nat) :
    (((counts.map Prod.fst).filter (fun j => j ≤ k)).map (lookupCount counts)).sum
      = cumCount counts k := by
  rw [List.filter_map, List.map_map]
  have h := map_lookup_eq_map_snd counts (counts.filter (fun p => p.1 ≤ k)) hnd
    (fun p hp => List.mem_of_mem_filter hp)
  simpa [cumCount, Function.comp] using congrArg List.sum h

theorem medianScan_isSome (counts : List (Nat × Nat)) (threshold : Nat) :
    ∀ (ks : List Nat) (base : Nat), ks ≠ [] →
      threshold ≤ base + (ks.map (lookupCount counts)).sum →
      (medianScan counts threshold base ks).isSome = true := by
  intro ks
  induction ks with
  | nil => intro base h; exact absurd rfl h
  | cons k0 ks ih =>
    intro base _ hsum
    by_cases hth : threshold ≤ base + lookupCount counts k0
    · simp [medianScan, hth]
    · cases ks with
      | nil =>
        exfalso
        simp only [List.map_cons, List.map_nil, List.sum_cons, List.sum_nil] at hsum
        omega
      | cons k1 ks' =>
        have hrec : threshold ≤ (base + lookupCount counts k0)
            + ((k1 :: ks').map (lookupCount counts)).sum := by
          simp only [List.map_cons, List.sum_cons] at hsum ⊢
          omega
        simpa [medianScan, hth] using
          ih (base + lookupCount counts k0) (by simp) hrec

theorem medianScan_some_spec (counts : List (Nat × Nat)) (threshold : Nat) :
    ∀ (ks : List Nat), List.Pairwise (· < ·) ks → ∀ (base k : Nat),
      medianScan counts threshold base ks = some k →
      k ∈ ks ∧
      threshold ≤ base + ((ks.filter (fun j => j ≤ k)).map (lookupCount counts)).sum ∧
      ∀ j ∈ ks, j < k →
        base + ((ks.filter (fun i => i ≤ j)).map (lookupCount counts)).sum < threshold := by
  intro ks
  induction ks with
  | nil => intro _ base k h; simp [medianScan] at h
  | cons k0 ks ih =>
    intro hpw base k h
    have hk0lt : ∀ j ∈ ks, k0 < j := (List.pairwise_cons.mp hpw).1
    have hpw' : List.Pairwise (· < ·) ks := (List.pairwise_cons.mp hpw).2
    by_cases hth : threshold ≤ base + lookupCount counts k0
    · have hk : k0 = k := by simpa [medianScan, hth] using h
      subst hk
      have hfilt : ks.filter (fun j => j ≤ k0) = [] := by
        rw [List.filter_eq_nil_iff]
        intro j hj
        simpa using hk0lt j hj
      refine ⟨List.mem_cons_self k0 ks, ?_, ?_⟩
      · simp [List.filter_cons, hfilt, hth]
      · intro j hj hjk
        rcases List.mem_cons.mp hj with rfl | hj'
        · omega
        · exact absurd hjk (by have := hk0lt j hj'; omega)
    · have h' : medianScan counts threshold (base + lookupCount counts k0) ks = some k := by
        simpa [medianScan, hth] using h
      obtain ⟨hkmem, hge, hlt⟩ := ih hpw' (base + lookupCount counts k0) k h'
      have hk0k : k0 < k := hk0lt k hkmem
      refine ⟨List.mem_cons_of_mem k0 hkmem, ?_, ?_⟩
      · have hcons : (k0 :: ks).filter (fun j => j ≤ k)
            = k0 :: ks.filter (fun j => j ≤ k) := by
          simp [List.filter_cons, Nat.le_of_lt hk0k]
        rw [hcons]
        simp only [List.map_cons, List.sum_cons]
        omega
      · intro j hj hjk
        rcases List.mem_cons.mp hj with rfl | hj'
        · have hfilt : ks.filter (fun i => i ≤ j) = [] := by
            rw [List.filter_eq_nil_iff]
            intro i hi
            simpa using hk0lt i hi
          simp only [List.filter_cons, decide_True, le_refl, if_true, hfilt,
            List.map_cons, List.map_nil, List.sum_cons, List.sum_nil]
          omega
        · have hcons : (k0 :: ks).filter (fun i => i ≤ j)
              = k0 :: ks.filter (fun i => i ≤ j) := by
            simp [List.filter_cons, Nat.le_of_lt (hk0lt j hj')]
          rw [hcons]
          simp only [List.map_cons, List.sum_cons]
          have := hlt j hj' hjk
          omega

theorem sortedKeys_perm (counts : List (Nat × Nat)) :
    (sortedKeys counts).Perm (counts.map Prod.fst) :=
  List.perm_insertionSort _ _

theorem sortedKeys_pairwise (counts : List (Nat × Nat))
    (hnd : (counts.map Prod.fst).Nodup) :
    List.Pairwise (· < ·) (sortedKeys counts) :=
  (List.sorted_insertionSort _ _).lt_of_le
    ((sortedKeys_perm counts).nodup_iff.mpr hnd)

theorem sortedKeys_sum (counts : List (Nat × Nat))
    (hnd : (counts.map Prod.fst).Nodup) :
    ((sortedKeys counts).map (lookupCount counts)).sum = histTotal counts := by
  rw [← sum_lookup_eq_histTotal counts hnd]
  exact (((sortedKeys_perm counts).map _)).sum_eq

theorem sortedKeys_filter_sum (counts : List (Nat × Nat))
    (hnd : (counts.map Prod.fst).Nodup) (k : Nat) :
    (((sortedKeys counts).filter (fun j => j ≤ k)).map (lookupCount counts)).sum
      = cumCount counts k := by
  rw [← sum_lookup_filter_eq_cumCount counts hnd k]
  exact ((((sortedKeys_perm counts).filter _)).map _).sum_eq

theorem sortedKeys_ne_nil (counts : List (Nat × Nat)) (hne : counts ≠ []) :
    sortedKeys counts ≠ [] := by
  intro h
  have hlen := (sortedKeys_perm counts).length_eq
  rw [h] at hlen
  cases counts with
  | nil => exact hne rfl
  | cons p ps => simp at hlen

theorem histTotal_pos (counts : List (Nat × Nat)) (hne : counts ≠ [])
    (hcpos : ∀ p ∈ counts, 0 < p.2) : 1 ≤ histTotal counts := by
  cases counts with
  | nil => exact absurd rfl hne
  | cons p ps =>
    have := hcpos p (List.mem_cons_self p ps)
    simp only [histTotal, List.map_cons, List.sum_cons]
    omega

theorem hist_median_spec (counts : List (Nat × Nat)) (hne : counts ≠ [])
    (hnd : (counts.map Prod.fst).Nodup) (hcpos : ∀ p ∈ counts, 0 < p.2) :
    hist_median_from_counts counts ∈ counts.map Prod.fst ∧
    (histTotal counts + 1) / 2 ≤ cumCount counts (hist_median_from_counts counts) ∧
    ∀ k ∈ counts.map Prod.fst, k < hist_median_from_counts counts →
      cumCount counts k < (histTotal counts + 1) / 2 := by
  have htot : 1 ≤ histTotal counts := histTotal_pos counts hne hcpos
  have hsome := medianScan_isSome counts ((histTotal counts + 1) / 2)
    (sortedKeys counts) 0 (sortedKeys_ne_nil counts hne)
    (by rw [sortedKeys_sum counts hnd]; omega)
  obtain ⟨k, hk⟩ := Option.isSome_iff_exists.mp hsome
  have hempty : counts.isEmpty = false := by
    cases counts with
    | nil => exact absurd rfl hne
    | cons p ps => rfl
  have hmed : hist_median_from_counts counts = k := by
    simp only [hist_median_from_counts, hempty, Bool.false_eq_true, if_false, hk]
  obtain ⟨hmem, hge, hlt⟩ := medianScan_some_spec counts ((histTotal counts + 1) / 2)
    (sortedKeys counts) (sortedKeys_pairwise counts hnd) 0 k hk
  rw [hmed]
  refine ⟨(sortedKeys_perm counts).mem_iff.mp hmem, ?_, ?_⟩
  · rw [sortedKeys_filter_sum counts hnd k, Nat.zero_add] at hge
    exact hge
  · intro j hj hjk
    have hj' : j ∈ sortedKeys counts := (sortedKeys_perm counts).mem_iff.mpr hj
    have h := hlt j hj' hjk
    rwa [sortedKeys_filter_sum counts hnd j, Nat.zero_add] at h

/-- C9: on the empty histogram (whose total count is 0) the median
estimator returns 0. -/
theorem median_empty_returns_zero : hist_median_from_counts [] = 0 := rfl

/-- C1: on a non-empty histogram with positive keys and positive counts,
the median is the smallest key, in ascending key order, whose cumulative
count first reaches `threshold = (total + 1) / 2`: the median is a key,
its cumulative count reaches the threshold, and every strictly smaller
key's cumulative count stays below it; in particular the histogram
`{100: 2, 200: 2}` has median 100, not the arithmetic mean 150. -/
theorem median_first_key_reaching_threshold (counts : List (Nat × Nat))
    (hne : counts ≠ []) (hnd : (counts.map Prod.fst).Nodup)
    (hkpos : ∀ p ∈ counts, 0 < p.1) (hcpos : ∀ p ∈ counts, 0 < p.2) :
    (hist_median_from_counts counts ∈ counts.map Prod.fst ∧
     (histTotal counts + 1) / 2 ≤ cumCount counts (hist_median_from_counts counts) ∧
     ∀ k ∈ counts.map Prod.fst, k < hist_median_from_counts counts →
       cumCount counts k < (histTotal counts + 1) / 2) ∧
    hist_median_from_counts [(100, 2), (200, 2)] = 100 :=
  ⟨hist_median_spec counts hne hnd hcpos, by decide⟩

/-- Witness for C1 on the histogram `{100: 2, 200: 2}` of the claim. -/
theorem median_first_key_reaching_threshold_witness :
    hist_median_from_counts [(100, 2), (200, 2)] = 100 ∧
    100 ∈ ([(100, 2), (200, 2)] : List (Nat × Nat)).map Prod.fst :=
  ⟨(median_first_key_reaching_threshold [(100, 2), (200, 2)]
      (by decide) (by decide) (by decide) (by decide)).2,
   by decide⟩

/-- C8: when every stored count is at least 1 and at least one key is
present, the ascending cumulative-sum loop of the median estimator reaches
`threshold = (total + 1) / 2` at some key (`medianScan` returns `some`),
so the fall-through that returns the maximum key is unreachable. -/
theorem median_loop_reaches_threshold (counts : List (Nat × Nat))
    (hne : counts ≠ []) (hnd : (counts.map Prod.fst).Nodup)
    (hcpos : ∀ p ∈ counts, 0 < p.2) :
    (medianScan counts ((histTotal counts + 1) / 2) 0 (sortedKeys counts)).isSome
      = true := by
  have htot : 1 ≤ histTotal counts := histTotal_pos counts hne hcpos
  exact medianScan_isSome counts ((histTotal counts + 1) / 2)
    (sortedKeys counts) 0 (sortedKeys_ne_nil counts hne)
    (by rw [sortedKeys_sum counts hnd]; omega)

/-- Witness for C8 on the histogram `{100: 2, 200: 2}`. -/
theorem median_loop_reaches_threshold_witness :
    (medianScan [(100, 2), (200, 2)]
      ((histTotal [(100, 2), (200, 2)] + 1) / 2) 0
      (sortedKeys [(100, 2), (200, 2)])).isSome = true :=
  median_loop_reaches_threshold [(100, 2), (200, 2)]
    (by decide) (by decide) (by decide)

/-! ## The category selector -/

/-- C2 counterexample: after one FR observation, with `min_pct = 0`, the RF
category's proportion `0 / 1 = 0` does reach `min_pct`, yet RF is not
retained — the selector unconditionally skips zero-count categories, so
the claimed "retained iff proportion ≥ min_pct" fails at this input. -/
theorem category_retention_counterexample :
    ((0 : ℚ) ≤ (histTotal (AggregateState.mk [(100, 1)] [] [] 1).rf : ℚ)
        / ((AggregateState.mk [(100, 1)] [] [] 1).total_left_records : ℚ)) ∧
    ∀ e ∈ keptList (AggregateState.mk [(100, 1)] [] [] 1) 0, e.1 ≠ "RF" := by
  constructor
  · norm_num [histTotal]
  · decide

theorem mkRat_nat_eq_div (n d : Nat) :
    mkRat (n : Int) d = (n : ℚ) / (d : ℚ) := by
  rw [Rat.mkRat_eq_div]
  push_cast
  rfl

/-- C2 (amended): for a state with `total_leftmost_records > 0` and
`min_pct ∈ [0, 1/2]`, a category is retained — with its count and
histogram — iff its count is positive AND its proportion
`count / total_leftmost_records` is at least `min_pct` (the threshold is
inclusive); a zero-count category is never retained, even at
`min_pct = 0`. -/
theorem category_retention (st : AggregateState) (min_pct : ℚ)
    (htot : 0 < st.total_left_records)
    (hm : 0 ≤ min_pct ∧ min_pct ≤ mkRat 1 2)
    (ori : String) (cnts : List (Nat × Nat))
    (hmem : (ori, cnts) ∈ categories st) :
    (ori, histTotal cnts, cnts) ∈ keptList st min_pct ↔
      0 < histTotal cnts ∧
      min_pct ≤ (histTotal cnts : ℚ) / (st.total_left_records : ℚ) := by
  constructor
  · intro h
    obtain ⟨p, hp, hchk⟩ := List.mem_filterMap.mp h
    unfold keptCheck at hchk
    by_cases h0 : histTotal p.2 = 0
    · simp [h0] at hchk
    · by_cases hle : min_pct ≤ mkRat (histTotal p.2) st.total_left_records
      · rw [if_neg h0, if_pos hle, Option.some.injEq] at hchk
        have hcnts : p.2 = cnts := congrArg (fun t => t.2.2) hchk
        rw [hcnts] at h0 hle
        refine ⟨Nat.pos_of_ne_zero h0, ?_⟩
        rwa [mkRat_nat_eq_div] at hle
      · rw [if_neg h0, if_neg hle] at hchk
        exact absurd hchk (by simp)
  · rintro ⟨hn, hle⟩
    have hchk : keptCheck st.total_left_records min_pct ori cnts
        = some (ori, histTotal cnts, cnts) := by
      unfold keptCheck
      rw [if_neg (by omega), if_pos]
      rw [mkRat_nat_eq_div]
      exact hle
    exact List.mem_filterMap.mpr ⟨(ori, cnts), hmem, hchk⟩

/-- Witness for C2 (amended) at a concrete state: with one FR and one RF
observation and `min_pct = 1/2`, FR is retained (proportion exactly 1/2,
inclusive threshold). -/
theorem category_retention_witness :
    ("FR", histTotal [(100, 1)], [(100, 1)])
        ∈ keptList (AggregateState.mk [(100, 1)] [(50, 1)] [] 2) (mkRat 1 2) ∧
    (0 : ℚ) < 2 :=
  ⟨(category_retention (AggregateState.mk [(100, 1)] [(50, 1)] [] 2) (mkRat 1 2)
      (by decide) (by decide) "FR" [(100, 1)] (by decide)).mpr
      (by norm_num [histTotal]),
   by norm_num⟩

/-! ## Parameter validation (C6) -/

/-- C6 counterexample: `compute_insert_size` accepts `min_pct = 3/5 = 0.6`
(outside `[0, 0.5]`) and scans and answers instead of failing with an
invalid-parameter error: `min_pct` is not validated inside
`compute_insert_size`. -/
theorem min_pct_not_validated_counterexample :
    compute_insert_size [frRecord 100] false false (mkRat 3 5) "FR" "specific"
      = Except.ok 100 := by decide

/-- C6 (amended): `compute_insert_size` fails before consuming any record
— uniformly in the record stream — with the invalid-strategy error when
`strategy ∉ {specific, dominant}`, and with the invalid-orientation error
when the strategy is valid but `orientation_pref ∉ {FR, RF, TANDEM}`;
`min_pct` is validated only by the CLI wrapper `main`, whose pre-scan
range check rejects `0.6`. -/
theorem param_validation_before_scan (records : List AlignedSegment)
    (incl req : Bool) (min_pct : ℚ) (pref strat : String) :
    (strat ≠ "specific" ∧ strat ≠ "dominant" →
      compute_insert_size records incl req min_pct pref strat
        = Except.error CISError.invalidStrategy) ∧
    ((strat = "specific" ∨ strat = "dominant") →
      pref ≠ "FR" ∧ pref ≠ "RF" ∧ pref ≠ "TANDEM" →
      compute_insert_size records incl req min_pct pref strat
        = Except.error CISError.invalidOrientationPref) ∧
    main_min_pct_check (mkRat 3 5) = false := by
  refine ⟨?_, ?_, by decide⟩
  · intro h
    unfold compute_insert_size
    rw [if_pos h]
  · intro hs hp
    have hne : ¬(strat ≠ "specific" ∧ strat ≠ "dominant") := by tauto
    unfold compute_insert_size
    rw [if_neg hne, if_pos hp]

/-- Witness for C6 (amended) at concrete bad parameters. -/
theorem param_validation_before_scan_witness :
    compute_insert_size [frRecord 100] false false 0 "FR" "bogus"
      = Except.error CISError.invalidStrategy ∧
    compute_insert_size [frRecord 100] false false 0 "XX" "specific"
      = Except.error CISError.invalidOrientationPref ∧
    main_min_pct_check (mkRat 3 5) = false :=
  ⟨(param_validation_before_scan [frRecord 100] false false 0 "FR" "bogus").1
      (by decide),
   (param_validation_before_scan [frRecord 100] false false 0 "XX" "specific").2.1
      (Or.inl rfl) (by decide),
   (param_validation_before_scan [frRecord 100] false false 0 "XX" "specific").2.2⟩

/-- C7: with valid `strategy` and `orientation_pref`, `compute_insert_size`
fails with the no-eligible-records error iff the completed scan counted
zero leftmost eligible records; in particular the empty record stream
fails this way. -/
theorem no_eligible_records_iff (records : List AlignedSegment)
    (incl req : Bool) (min_pct : ℚ) (pref strat : String)
    (hs : strat = "specific" ∨ strat = "dominant")
    (hp : pref = "FR" ∨ pref = "RF" ∨ pref = "TANDEM") :
    (compute_insert_size records incl req min_pct pref strat
        = Except.error CISError.noEligibleRecords ↔
      (scan incl req records).total_left_records = 0) ∧
    compute_insert_size [] incl req min_pct pref strat
      = Except.error CISError.noEligibleRecords := by
  have h1 : ¬(strat ≠ "specific" ∧ strat ≠ "dominant") := by tauto
  have h2 : ¬(pref ≠ "FR" ∧ pref ≠ "RF" ∧ pref ≠ "TANDEM") := by tauto
  constructor
  · by_cases htot : (scan incl req records).total_left_records = 0
    · simp only [compute_insert_size, if_neg h1, if_neg h2, if_pos htot]
      simp [htot]
    · simp only [compute_insert_size, if_neg h1, if_neg h2, if_neg htot]
      rw [iff_false_intro htot, iff_false]
      cases hkept : keptList (scan incl req records) min_pct with
      | nil => simp
      | cons k0 krest =>
        by_cases hstr : strat = "specific"
        · cases hfind : (k0 :: krest).find? (fun e => e.1 == pref) with
          | none => simp [hstr, hfind]
          | some e => simp [hstr, hfind]
        · simp [hstr]
  · simp only [compute_insert_size, if_neg h1, if_neg h2]
    rfl

/-- Witness for C7 at concrete parameters and streams. -/
theorem no_eligible_records_iff_witness :
    (compute_insert_size [frRecord 100] false false 0 "FR" "specific"
        = Except.error CISError.noEligibleRecords ↔
      (scan false false [frRecord 100]).total_left_records = 0) ∧
    compute_insert_size [] false false 0 "FR" "specific"
      = Except.error CISError.noEligibleRecords :=
  no_eligible_records_iff [frRecord 100] false false 0 "FR" "specific"
    (Or.inl rfl) (Or.inl rfl)

/-- C4: the orientation classifier follows the truth table
`(left_rev, right_rev)`: (false,false) → TANDEM, (true,true) → TANDEM,
(false,true) → FR, (true,false) → RF, where `left_rev = is_reverse` and
`right_rev = mate_is_reverse` of the (leftmost) record. -/
theorem orientation_truth_table (r : AlignedSegment) :
    (r.is_reverse = false → r.mate_is_reverse = false →
        pair_orientation_leftmost r = "TANDEM") ∧
    (r.is_reverse = true → r.mate_is_reverse = true →
        pair_orientation_leftmost r = "TANDEM") ∧
    (r.is_reverse = false → r.mate_is_reverse = true →
        pair_orientation_leftmost r = "FR") ∧
    (r.is_reverse = true → r.mate_is_reverse = false →
        pair_orientation_leftmost r = "RF") := by
  unfold pair_orientation_leftmost
  cases h1 : r.is_reverse <;> cases h2 : r.mate_is_reverse <;> simp_all

/-- Witness for C4 at a concrete record: forward left end, reverse right
end is classified FR. -/
theorem orientation_truth_table_witness :
    pair_orientation_leftmost (frRecord 100) = "FR" :=
  (orientation_truth_table (frRecord 100)).2.2.1 rfl rfl

/-- C3: a record passes the filter iff the conjunction of the eight stated
conditions holds; as a conjunction of independent conditions the outcome
does not depend on the order in which they are checked. -/
theorem eligible_iff_conjunction (r : AlignedSegment) (incl req : Bool) :
    eligible r incl req = true ↔
      (r.is_paired = true ∧
       (r.is_secondary = false ∧ r.is_supplementary = false) ∧
       (r.is_duplicate = false ∨ incl = true) ∧
       (r.is_unmapped = false ∧ r.mate_is_unmapped = false) ∧
       r.reference_id = r.next_reference_id ∧
       (r.is_proper_pair = true ∨ req = false) ∧
       0 < r.template_length ∧
       r.template_length.natAbs ≠ 0) := by
  unfold eligible
  repeat' split
  all_goals simp_all
  all_goals try (intros; simp_all)
  all_goals cases incl <;> cases req <;> simp_all

/-! ## The histogram accumulator (C10) -/

theorem histTotal_cons (p : Nat × Nat) (ps : List (Nat × Nat)) :
    histTotal (p :: ps) = p.2 + histTotal ps := by
  simp [histTotal]

theorem histTotal_counterIncr (c : List (Nat × Nat)) (k : Nat) :
    histTotal (counterIncr c k) = histTotal c + 1 := by
  induction c with
  | nil => rfl
  | cons p ps ih =>
    by_cases h : p.1 = k
    · simp only [counterIncr, if_pos h, histTotal_cons]
      omega
    · simp only [counterIncr, if_neg h, histTotal_cons, ih]
      omega

theorem counterIncr_keys (c : List (Nat × Nat)) (k : Nat) :
    ∀ p ∈ counterIncr c k, p.1 = k ∨ p ∈ c := by
  induction c with
  | nil =>
    intro p hp
    simp only [counterIncr, List.mem_singleton] at hp
    left
    rw [hp]
  | cons q qs ih =>
    intro p hp
    by_cases h : q.1 = k
    · rw [counterIncr, if_pos h] at hp
      rcases List.mem_cons.mp hp with rfl | hp'
      · left; exact h
      · right; exact List.mem_cons_of_mem q hp'
    · rw [counterIncr, if_neg h] at hp
      rcases List.mem_cons.mp hp with rfl | hp'
      · right; exact List.mem_cons_self p qs
      · rcases ih p hp' with h' | h'
        · left; exact h'
        · right; exact List.mem_cons_of_mem q h'

theorem addObs_fr (st : AggregateState) (ori : String) (ins : Nat) :
    (addObs st ori ins).fr
      = if ori = "FR" then counterIncr st.fr ins else st.fr := by
  by_cases h1 : ori = "FR" <;> by_cases h2 : ori = "RF" <;> simp [addObs, h1, h2]

theorem addObs_rf (st : AggregateState) (ori : String) (ins : Nat) :
    (addObs st ori ins).rf
      = if ori = "RF" ∧ ori ≠ "FR" then counterIncr st.rf ins else st.rf := by
  by_cases h1 : ori = "FR" <;> by_cases h2 : ori = "RF" <;> simp_all [addObs]

theorem addObs_tandem (st : AggregateState) (ori : String) (ins : Nat) :
    (addObs st ori ins).tandem
      = if ori ≠ "FR" ∧ ori ≠ "RF" then counterIncr st.tandem ins
        else st.tandem := by
  by_cases h1 : ori = "FR" <;> by_cases h2 : ori = "RF" <;> simp_all [addObs]

theorem addObs_total (st : AggregateState) (ori : String) (ins : Nat) :
    (addObs st ori ins).total_left_records = st.total_left_records := by
  by_cases h1 : ori = "FR" <;> by_cases h2 : ori = "RF" <;> simp [addObs, h1, h2]

theorem histSum_addObs (st : AggregateState) (ori : String) (ins : Nat) :
    histSum (addObs st ori ins) = histSum st + 1 := by
  by_cases h1 : ori = "FR" <;> by_cases h2 : ori = "RF" <;>
    simp_all [addObs, histSum, histTotal_counterIncr] <;> omega

theorem addObs_keys (st : AggregateState) (ori : String) (ins : Nat)
    (p : Nat × Nat)
    (h : p ∈ (addObs st ori ins).fr ∨ p ∈ (addObs st ori ins).rf ∨
         p ∈ (addObs st ori ins).tandem) :
    p.1 = ins ∨ p ∈ st.fr ∨ p ∈ st.rf ∨ p ∈ st.tandem := by
  rw [addObs_fr, addObs_rf, addObs_tandem] at h
  rcases h with h | h | h
  · by_cases hc : ori = "FR"
    · rw [if_pos hc] at h
      rcases counterIncr_keys st.fr ins p h with h' | h'
      · exact Or.inl h'
      · exact Or.inr (Or.inl h')
    · rw [if_neg hc] at h
      exact Or.inr (Or.inl h)
  · by_cases hc : ori = "RF" ∧ ori ≠ "FR"
    · rw [if_pos hc] at h
      rcases counterIncr_keys st.rf ins p h with h' | h'
      · exact Or.inl h'
      · exact Or.inr (Or.inr (Or.inl h'))
    · rw [if_neg hc] at h
      exact Or.inr (Or.inr (Or.inl h))
  · by_cases hc : ori ≠ "FR" ∧ ori ≠ "RF"
    · rw [if_pos hc] at h
      rcases counterIncr_keys st.tandem ins p h with h' | h'
      · exact Or.inl h'
      · exact Or.inr (Or.inr (Or.inr h'))
    · rw [if_neg hc] at h
      exact Or.inr (Or.inr (Or.inr h))

theorem processRecord_not_eligible (incl req : Bool) (st : AggregateState)
    (r : AlignedSegment) (h : eligible r incl req = false) :
    processRecord incl req st r = st := by
  simp [processRecord, h]

theorem processRecord_eligible_histSum (incl req : Bool) (st : AggregateState)
    (r : AlignedSegment) (h : eligible r incl req = true) :
    histSum (processRecord incl req st r) = histSum st + 1 ∧
    (processRecord incl req st r).total_left_records
      = st.total_left_records + 1 := by
  unfold processRecord
  rw [if_pos h]
  constructor
  · show histSum (addObs st (pair_orientation_leftmost r)
        r.template_length.natAbs) = histSum st + 1
    exact histSum_addObs st (pair_orientation_leftmost r) r.template_length.natAbs
  · show (addObs st (pair_orientation_leftmost r)
        r.template_length.natAbs).total_left_records + 1
      = st.total_left_records + 1
    rw [addObs_total]

theorem eligible_tlen_pos (r : AlignedSegment) (incl req : Bool)
    (h : eligible r incl req = true) : 0 < r.template_length := by
  unfold eligible at h
  repeat' split at h
  all_goals first | omega | exact absurd h (by simp)

theorem foldl_state_invariant (incl req : Bool) (records : List AlignedSegment) :
    ∀ st : AggregateState,
      st.total_left_records = histSum st →
      (∀ p : Nat × Nat, (p ∈ st.fr ∨ p ∈ st.rf ∨ p ∈ st.tandem) → 1 ≤ p.1) →
      ((records.foldl (processRecord incl req) st).total_left_records
          = histSum (records.foldl (processRecord incl req) st) ∧
        ∀ p : Nat × Nat,
          (p ∈ (records.foldl (processRecord incl req) st).fr ∨
           p ∈ (records.foldl (processRecord incl req) st).rf ∨
           p ∈ (records.foldl (processRecord incl req) st).tandem) → 1 ≤ p.1) := by
  induction records with
  | nil => intro st h1 h2; exact ⟨h1, h2⟩
  | cons r rs ih =>
    intro st h1 h2
    rw [List.foldl_cons]
    by_cases he : eligible r incl req = true
    · apply ih
      · rw [(processRecord_eligible_histSum incl req st r he).2,
            (processRecord_eligible_histSum incl req st r he).1, h1]
      · intro p hp
        have hp' : p ∈ (addObs st (pair_orientation_leftmost r)
              r.template_length.natAbs).fr ∨
            p ∈ (addObs st (pair_orientation_leftmost r)
              r.template_length.natAbs).rf ∨
            p ∈ (addObs st (pair_orientation_leftmost r)
              r.template_length.natAbs).tandem := by
          simpa [processRecord, he] using hp
        rcases addObs_keys st (pair_orientation_leftmost r)
            r.template_length.natAbs p hp' with h' | h'
        · have := eligible_tlen_pos r incl req he
          omega
        · exact h2 p h'
    · rw [processRecord_not_eligible incl req st r
        (Bool.not_eq_true _ ▸ he)]
      exact ih st h1 h2

/-- C10: after the scan of any record stream (hence after any prefix of a
longer stream), `total_left_records` equals the sum of all counts over all
keys of the three category histograms and every stored key is a positive
integer; moreover each processed record either leaves the state unchanged
or increments one histogram count and `total_left_records` by exactly one
each. -/
theorem scan_totals_invariant (incl req : Bool) (records : List AlignedSegment) :
    ((scan incl req records).total_left_records
        = histSum (scan incl req records) ∧
      ∀ p : Nat × Nat,
        (p ∈ (scan incl req records).fr ∨ p ∈ (scan incl req records).rf ∨
         p ∈ (scan incl req records).tandem) → 1 ≤ p.1) ∧
    ∀ (st : AggregateState) (r : AlignedSegment),
      processRecord incl req st r = st ∨
      (histSum (processRecord incl req st r) = histSum st + 1 ∧
        (processRecord incl req st r).total_left_records
          = st.total_left_records + 1) := by
  constructor
  · exact foldl_state_invariant incl req records initState rfl
      (by intro p hp; simp [initState] at hp)
  · intro st r
    by_cases he : eligible r incl req = true
    · exact Or.inr (processRecord_eligible_histSum incl req st r he)
    · exact Or.inl (processRecord_not_eligible incl req st r
        (Bool.not_eq_true _ ▸ he))

/-- Witness for C10 at a concrete stream: one eligible record gives
`total_left_records = histSum = 1`. -/
theorem scan_totals_invariant_witness :
    (scan false false [frRecord 100]).total_left_records
      = histSum (scan false false [frRecord 100]) :=
  (scan_totals_invariant false false [frRecord 100]).1.1

/-! ## The dominant strategy (C5) -/

theorem pair_orientation_cases (r : AlignedSegment) :
    pair_orientation_leftmost r = "FR" ∨ pair_orientation_leftmost r = "RF" ∨
    pair_orientation_leftmost r = "TANDEM" := by
  unfold pair_orientation_leftmost
  dsimp only
  by_cases h : r.is_reverse = r.mate_is_reverse
  · rw [if_pos h]
    exact Or.inr (Or.inr rfl)
  · rw [if_neg h]
    by_cases h2 : (!r.is_reverse && r.mate_is_reverse) = true
    · rw [if_pos h2]
      exact Or.inl rfl
    · rw [if_neg h2]
      exact Or.inr (Or.inl rfl)

theorem processRecord_fr_total (incl req : Bool) (st : AggregateState)
    (r : AlignedSegment) :
    histTotal (processRecord incl req st r).fr
      = histTotal st.fr +
        (if eligible r incl req && (pair_orientation_leftmost r == "FR")
         then 1 else 0) := by
  by_cases he : eligible r incl req = true
  · have hfr : (processRecord incl req st r).fr
        = (addObs st (pair_orientation_leftmost r) r.template_length.natAbs).fr := by
      simp [processRecord, he]
    rw [hfr, addObs_fr]
    by_cases ho : pair_orientation_leftmost r = "FR"
    · simp [ho, he, histTotal_counterIncr]
    · simp [ho, he]
  · have h0 : eligible r incl req = false := Bool.not_eq_true _ ▸ he
    rw [processRecord_not_eligible incl req st r h0]
    simp [h0]

theorem processRecord_rf_total (incl req : Bool) (st : AggregateState)
    (r : AlignedSegment) :
    histTotal (processRecord incl req st r).rf
      = histTotal st.rf +
        (if eligible r incl req && (pair_orientation_leftmost r == "RF")
         then 1 else 0) := by
  by_cases he : eligible r incl req = true
  · have hrf : (processRecord incl req st r).rf
        = (addObs st (pair_orientation_leftmost r) r.template_length.natAbs).rf := by
      simp [processRecord, he]
    rw [hrf, addObs_rf]
    by_cases ho : pair_orientation_leftmost r = "RF"
    · rw [if_pos ⟨ho, by rw [ho]; decide⟩]
      simp [ho, he, histTotal_counterIncr]
    · rw [if_neg (fun hc => ho hc.1)]
      simp [ho, he]
  · have h0 : eligible r incl req = false := Bool.not_eq_true _ ▸ he
    rw [processRecord_not_eligible incl req st r h0]
    simp [h0]

theorem processRecord_tandem_total (incl req : Bool) (st : AggregateState)
    (r : AlignedSegment) :
    histTotal (processRecord incl req st r).tandem
      = histTotal st.tandem +
        (if eligible r incl req && (pair_orientation_leftmost r == "TANDEM")
         then 1 else 0) := by
  by_cases he : eligible r incl req = true
  · have ht : (processRecord incl req st r).tandem
        = (addObs st (pair_orientation_leftmost r)
            r.template_length.natAbs).tandem := by
      simp [processRecord, he]
    rw [ht, addObs_tandem]
    by_cases ho : pair_orientation_leftmost r = "TANDEM"
    · rw [if_pos ⟨by rw [ho]; decide, by rw [ho]; decide⟩]
      simp [ho, he, histTotal_counterIncr]
    · have hor : pair_orientation_leftmost r = "FR" ∨
          pair_orientation_leftmost r = "RF" := by
        rcases pair_orientation_cases r with h | h | h
        · exact Or.inl h
        · exact Or.inr h
        · exact absurd h ho
      rw [if_neg (by rcases hor with h | h <;> rw [h] <;> simp)]
      simp [ho, he]
  · have h0 : eligible r incl req = false := Bool.not_eq_true _ ▸ he
    rw [processRecord_not_eligible incl req st r h0]
    simp [h0]

theorem processRecord_total (incl req : Bool) (st : AggregateState)
    (r : AlignedSegment) :
    (processRecord incl req st r).total_left_records
      = st.total_left_records + (if eligible r incl req then 1 else 0) := by
  by_cases he : eligible r incl req = true
  · rw [(processRecord_eligible_histSum incl req st r he).2]
    simp [he]
  · have h0 : eligible r incl req = false := Bool.not_eq_true _ ▸ he
    rw [processRecord_not_eligible incl req st r h0]
    simp [h0]

theorem scan_field_totals (incl req : Bool) (rs : List AlignedSegment) :
    ∀ st : AggregateState,
      histTotal ((rs.foldl (processRecord incl req) st).fr)
        = histTotal st.fr + oriCountP incl req "FR" rs ∧
      histTotal ((rs.foldl (processRecord incl req) st).rf)
        = histTotal st.rf + oriCountP incl req "RF" rs ∧
      histTotal ((rs.foldl (processRecord incl req) st).tandem)
        = histTotal st.tandem + oriCountP incl req "TANDEM" rs ∧
      (rs.foldl (processRecord incl req) st).total_left_records
        = st.total_left_records + rs.countP (fun x => eligible x incl req) := by
  induction rs with
  | nil => intro st; simp [oriCountP]
  | cons r rs ih =>
    intro st
    rw [List.foldl_cons]
    obtain ⟨i1, i2, i3, i4⟩ := ih (processRecord incl req st r)
    refine ⟨?_, ?_, ?_, ?_⟩
    · rw [i1, processRecord_fr_total]
      simp only [oriCountP, List.countP_cons]
      by_cases hc : (eligible r incl req
          && (pair_orientation_leftmost r == "FR")) = true <;>
        simp [hc] <;> omega
    · rw [i2, processRecord_rf_total]
      simp only [oriCountP, List.countP_cons]
      by_cases hc : (eligible r incl req
          && (pair_orientation_leftmost r == "RF")) = true <;>
        simp [hc] <;> omega
    · rw [i3, processRecord_tandem_total]
      simp only [oriCountP, List.countP_cons]
      by_cases hc : (eligible r incl req
          && (pair_orientation_leftmost r == "TANDEM")) = true <;>
        simp [hc] <;> omega
    · rw [i4, processRecord_total]
      simp only [List.countP_cons]
      by_cases hc : eligible r incl req = true <;> simp [hc] <;> omega

theorem scan_totals_countP (incl req : Bool) (rs : List AlignedSegment) :
    histTotal (scan incl req rs).fr = oriCountP incl req "FR" rs ∧
    histTotal (scan incl req rs).rf = oriCountP incl req "RF" rs ∧
    histTotal (scan incl req rs).tandem = oriCountP incl req "TANDEM" rs ∧
    (scan incl req rs).total_left_records
      = rs.countP (fun x => eligible x incl req) := by
  have h := scan_field_totals incl req rs initState
  simpa [scan, initState, histTotal] using h

theorem bestOf_first_max (xs : List KeptEntry) : ∀ x : KeptEntry,
    ∃ l1 l2, x :: xs = l1 ++ bestOf x xs :: l2 ∧
      (∀ y ∈ l1, y.2.1 < (bestOf x xs).2.1) ∧
      ∀ y ∈ x :: xs, y.2.1 ≤ (bestOf x xs).2.1 := by
  induction xs with
  | nil =>
    intro x
    exact ⟨[], [], rfl, by simp, by simp [bestOf]⟩
  | cons y ys ih =>
    intro x
    have hstep : bestOf x (y :: ys) = bestOf (if x.2.1 < y.2.1 then y else x) ys :=
      rfl
    by_cases h : x.2.1 < y.2.1
    · rw [hstep, if_pos h]
      obtain ⟨l1, l2, heq, hl1, hall⟩ := ih y
      refine ⟨x :: l1, l2, ?_, ?_, ?_⟩
      · rw [List.cons_append, ← heq]
      · intro z hz
        rcases List.mem_cons.mp hz with rfl | hz'
        · exact lt_of_lt_of_le h (hall y (List.mem_cons_self y ys))
        · exact hl1 z hz'
      · intro z hz
        rcases List.mem_cons.mp hz with rfl | hz'
        · exact le_of_lt (lt_of_lt_of_le h (hall y (List.mem_cons_self y ys)))
        · exact hall z hz'
    · rw [hstep, if_neg h]
      obtain ⟨l1, l2, heq, hl1, hall⟩ := ih x
      have hyx : y.2.1 ≤ x.2.1 := Nat.le_of_not_lt h
      have hxb : x.2.1 ≤ (bestOf x ys).2.1 := hall x (List.mem_cons_self x ys)
      cases l1 with
      | nil =>
        rw [List.nil_append] at heq
        obtain ⟨hbx, hl2⟩ := List.cons_eq_cons.mp heq
        refine ⟨[], y :: ys, ?_, by simp, ?_⟩
        · rw [List.nil_append, ← hbx]
        · intro z hz
          rcases List.mem_cons.mp hz with rfl | hz'
          · exact hxb
          · rcases List.mem_cons.mp hz' with rfl | hz''
            · exact le_trans hyx hxb
            · exact hall z (List.mem_cons_of_mem x hz'')
      | cons a l1' =>
        rw [List.cons_append] at heq
        obtain ⟨hax, hys⟩ := List.cons_eq_cons.mp heq
        have hxlt : x.2.1 < (bestOf x ys).2.1 := by
          have h' := hl1 a (List.mem_cons_self a l1')
          rw [← hax] at h'
          exact h'
        refine ⟨x :: y :: l1', l2, ?_, ?_, ?_⟩
        · rw [List.cons_append, List.cons_append, ← hys]
        · intro z hz
          rcases List.mem_cons.mp hz with rfl | hz'
          · exact hxlt
          · rcases List.mem_cons.mp hz' with rfl | hz''
            · exact lt_of_le_of_lt hyx hxlt
            · exact hl1 z (List.mem_cons_of_mem a hz'')
        · intro z hz
          rcases List.mem_cons.mp hz with rfl | hz'
          · exact hxb
          · rcases List.mem_cons.mp hz' with rfl | hz''
            · exact le_trans hyx hxb
            · exact hall z (List.mem_cons_of_mem x hz'')

theorem keptCheck_eq (total : Nat) (m : ℚ) (ori : String)
    (cnts : List (Nat × Nat)) :
    keptCheck total m ori cnts
      = if histTotal cnts ≠ 0 ∧ m ≤ mkRat (histTotal cnts) total
        then some (ori, histTotal cnts, cnts) else none := by
  unfold keptCheck
  by_cases h0 : histTotal cnts = 0
  · simp [h0]
  · by_cases hle : m ≤ mkRat (histTotal cnts) total <;> simp [h0, hle]

theorem keptList_eq (st : AggregateState) (m : ℚ) :
    keptList st m
      = (if histTotal st.fr ≠ 0 ∧ m ≤ mkRat (histTotal st.fr) st.total_left_records
         then [("FR", histTotal st.fr, st.fr)] else [])
        ++ (if histTotal st.rf ≠ 0 ∧ m ≤ mkRat (histTotal st.rf) st.total_left_records
            then [("RF", histTotal st.rf, st.rf)] else [])
        ++ (if histTotal st.tandem ≠ 0 ∧
              m ≤ mkRat (histTotal st.tandem) st.total_left_records
            then [("TANDEM", histTotal st.tandem, st.tandem)] else []) := by
  simp only [keptList, categories, List.filterMap_cons, List.filterMap_nil,
    keptCheck_eq]
  by_cases c1 : histTotal st.fr ≠ 0 ∧
      m ≤ mkRat (histTotal st.fr) st.total_left_records <;>
    by_cases c2 : histTotal st.rf ≠ 0 ∧
        m ≤ mkRat (histTotal st.rf) st.total_left_records <;>
      by_cases c3 : histTotal st.tandem ≠ 0 ∧
          m ≤ mkRat (histTotal st.tandem) st.total_left_records <;>
        simp [c1, c2, c3]

theorem keptPairs_check_eq (total : Nat) (m : ℚ) (p : String × Nat) :
    (if p.2 = 0 then none
     else if m ≤ mkRat p.2 total then some p else none)
      = if p.2 ≠ 0 ∧ m ≤ mkRat p.2 total then some p else none := by
  by_cases h0 : p.2 = 0
  · simp [h0]
  · by_cases hle : m ≤ mkRat p.2 total <;> simp [h0, hle]

theorem keptPairs_eq (nFR nRF nT total : Nat) (m : ℚ) :
    keptPairs nFR nRF nT total m
      = (if nFR ≠ 0 ∧ m ≤ mkRat nFR total then [("FR", nFR)] else [])
        ++ (if nRF ≠ 0 ∧ m ≤ mkRat nRF total then [("RF", nRF)] else [])
        ++ (if nT ≠ 0 ∧ m ≤ mkRat nT total then [("TANDEM", nT)] else []) := by
  simp only [keptPairs, List.filterMap_cons, List.filterMap_nil,
    keptPairs_check_eq]
  by_cases c1 : nFR ≠ 0 ∧ m ≤ mkRat nFR total <;>
    by_cases c2 : nRF ≠ 0 ∧ m ≤ mkRat nRF total <;>
      by_cases c3 : nT ≠ 0 ∧ m ≤ mkRat nT total <;>
        simp [c1, c2, c3]

theorem keptList_labels_sublist (st : AggregateState) (min_pct : ℚ) :
    List.Sublist ((keptList st min_pct).map (fun e => e.1))
      ["FR", "RF", "TANDEM"] := by
  rw [keptList_eq]
  by_cases c1 : histTotal st.fr ≠ 0 ∧
      min_pct ≤ mkRat (histTotal st.fr) st.total_left_records <;>
    by_cases c2 : histTotal st.rf ≠ 0 ∧
        min_pct ≤ mkRat (histTotal st.rf) st.total_left_records <;>
      by_cases c3 : histTotal st.tandem ≠ 0 ∧
          min_pct ≤ mkRat (histTotal st.tandem) st.total_left_records <;>
        simp [c1, c2, c3] <;> decide

theorem keptList_map_proj (st : AggregateState) (m : ℚ) :
    (keptList st m).map keptEntryProj
      = keptPairs (histTotal st.fr) (histTotal st.rf) (histTotal st.tandem)
          st.total_left_records m := by
  rw [keptList_eq, keptPairs_eq]
  by_cases c1 : histTotal st.fr ≠ 0 ∧
      m ≤ mkRat (histTotal st.fr) st.total_left_records <;>
    by_cases c2 : histTotal st.rf ≠ 0 ∧
        m ≤ mkRat (histTotal st.rf) st.total_left_records <;>
      by_cases c3 : histTotal st.tandem ≠ 0 ∧
          m ≤ mkRat (histTotal st.tandem) st.total_left_records <;>
        simp [c1, c2, c3, keptEntryProj]

theorem bestOf_proj (xs : List KeptEntry) : ∀ x : KeptEntry,
    keptEntryProj (bestOf x xs)
      = (xs.map keptEntryProj).foldl
          (fun b y => if b.2 < y.2 then y else b) (keptEntryProj x) := by
  induction xs with
  | nil => intro x; rfl
  | cons y ys ih =>
    intro x
    rw [List.map_cons, List.foldl_cons]
    have hstep : bestOf x (y :: ys) = bestOf (if x.2.1 < y.2.1 then y else x) ys :=
      rfl
    rw [hstep, ih]
    congr 1
    by_cases h : x.2.1 < y.2.1 <;> simp [keptEntryProj, h]

theorem dominantChoice_label (st : AggregateState) (m : ℚ) :
    (dominantChoice st m).map (fun e => e.1)
      = dominantLabel (histTotal st.fr) (histTotal st.rf)
          (histTotal st.tandem) st.total_left_records m := by
  have hmap := keptList_map_proj st m
  unfold dominantChoice dominantLabel
  cases hk : keptList st m with
  | nil =>
    rw [hk] at hmap
    rw [← hmap]
    rfl
  | cons x xs =>
    rw [hk, List.map_cons] at hmap
    rw [← hmap]
    have hproj := bestOf_proj xs x
    show some (bestOf x xs).1
      = some (((xs.map keptEntryProj).foldl
          (fun b y => if b.2 < y.2 then y else b) (keptEntryProj x)).1)
    rw [← hproj]
    rfl

/-- C5: under the dominant strategy with a non-empty retained set, the
selected entry is a retained entry of maximal count, every entry strictly
before it in `kept` has a strictly smaller count (so ties go to the first
maximal entry), and `kept` lists labels in the fixed order FR, RF, TANDEM;
moreover the selected label is the same for any two record streams that
are permutations of each other. -/
theorem dominant_selection (st : AggregateState) (min_pct : ℚ)
    (x : KeptEntry) (xs : List KeptEntry)
    (h : keptList st min_pct = x :: xs) :
    (dominantChoice st min_pct = some (bestOf x xs) ∧
     (∃ l1 l2, keptList st min_pct = l1 ++ bestOf x xs :: l2 ∧
       (∀ y ∈ l1, y.2.1 < (bestOf x xs).2.1) ∧
       ∀ y ∈ keptList st min_pct, y.2.1 ≤ (bestOf x xs).2.1) ∧
     List.Sublist ((keptList st min_pct).map (fun e => e.1))
       ["FR", "RF", "TANDEM"]) ∧
    ∀ (incl req : Bool) (rs1 rs2 : List AlignedSegment), rs1.Perm rs2 →
      (dominantChoice (scan incl req rs1) min_pct).map (fun e => e.1)
        = (dominantChoice (scan incl req rs2) min_pct).map (fun e => e.1) := by
  refine ⟨⟨?_, ?_, keptList_labels_sublist st min_pct⟩, ?_⟩
  · unfold dominantChoice
    rw [h]
  · obtain ⟨l1, l2, heq, hl1, hall⟩ := bestOf_first_max xs x
    exact ⟨l1, l2, by rw [h]; exact heq, hl1, by rw [h]; exact hall⟩
  · intro incl req rs1 rs2 hperm
    rw [dominantChoice_label, dominantChoice_label]
    obtain ⟨a1, b1, c1, d1⟩ := scan_totals_countP incl req rs1
    obtain ⟨a2, b2, c2, d2⟩ := scan_totals_countP incl req rs2
    rw [a1, b1, c1, d1, a2, b2, c2, d2]
    unfold oriCountP
    rw [hperm.countP_eq, hperm.countP_eq, hperm.countP_eq, hperm.countP_eq]

/-- Witness for C5: with FR and RF both retained at count 2 (a tie), the
dominant strategy picks FR. -/
theorem dominant_selection_witness :
    dominantChoice (AggregateState.mk [(100, 2)] [(50, 2)] [] 4) 0
      = some ("FR", 2, [(100, 2)]) :=
  ((dominant_selection (AggregateState.mk [(100, 2)] [(50, 2)] [] 4) 0
      ("FR", 2, [(100, 2)]) [("RF", 2, [(50, 2)])] (by decide)).1.1).trans
    (by decide)
